import Mathlib

/-!
# Pump control bus: message buffers of `pump-control-lib.h`

The header declares two packed C structures, `struct mastermsgbuf` and
`struct slavemsgbuf`, and four constants.  This development embeds

* the declarations themselves (`CType`, `Member`, `StructDecl`) together with the
  C rules that give every member its size, alignment and offset;
* the values of the two structures (`mastermsgbuf`, `slavemsgbuf`) together with
  their object representation, the sequence of bytes a node puts on the bus
  when it transmits the structure (`image`), and the positional read of a
  received byte sequence through the member offsets (`read`).

An `unsigned char` object and a plain `char` object are both modelled by their
8-bit object representation, a number in `0..255`.
-/

namespace PumpControl

/-! ## Constants -/

def SERIAL_MON_BPS : Nat := 115200

def RS485_BPS : Nat := 115200

def MASTER_ID : Nat := 0x1

def DISPLAY_NODE_ID : Nat := 0x2

/-! ## C declarations -/

/-- One byte of storage: the object representation of an `unsigned char` or of a
plain `char`. -/
abbrev Byte := Fin 256

/-- Conversion of an integer constant to `unsigned char` (reduction modulo 2^8), as
performed when a constant is assigned to a one-byte member. -/
def to_uchar (n : Nat) : Byte := ⟨n % 256, Nat.mod_lt n (by decide)⟩

/-- The object types that occur in the header. -/
inductive CType where
  | uchar : CType
  | char : CType
  | array : CType → Nat → CType
  deriving DecidableEq

/-- Size in bytes of an object type (`sizeof`). -/
def CType.sizeof : CType → Nat
  | .uchar => 1
  | .char => 1
  | .array t n => n * t.sizeof

/-- Alignment requirement in bytes of an object type. -/
def CType.alignof : CType → Nat
  | .uchar => 1
  | .char => 1
  | .array t _ => t.alignof

/-- The member names used by the two structures. -/
inductive FieldName where
  | node_address_to
  | node_address_from
  | inputs
  | outputs
  | line
  | checksum
  deriving DecidableEq

/-- A member declaration: its name and its type. -/
structure Member where
  name : FieldName
  type : CType
  deriving DecidableEq

/-- A structure declaration: the members in declaration order, and whether the
declaration carries the `packed` attribute. -/
structure StructDecl where
  members : List Member
  packed : Bool
  deriving DecidableEq

/-- Declaration of `struct mastermsgbuf`. -/
def mastermsgbuf_decl : StructDecl :=
  StructDecl.mk
    [ Member.mk .node_address_to .uchar,
      Member.mk .node_address_from .uchar,
      Member.mk .inputs .uchar,
      Member.mk .outputs .uchar,
      Member.mk .line (.array (.array .char 20) 4),
      Member.mk .checksum .uchar ]
    true

/-- Declaration of `struct slavemsgbuf`. -/
def slavemsgbuf_decl : StructDecl :=
  StructDecl.mk
    [ Member.mk .node_address_to .uchar,
      Member.mk .node_address_from .uchar,
      Member.mk .inputs .uchar,
      Member.mk .outputs .uchar,
      Member.mk .checksum .uchar ]
    true

/-- Least multiple of `a` that is at least `off`. -/
def alignUp (off a : Nat) : Nat := (off + a - 1) / a * a

/-- Alignment applied to a member: 1 in a packed structure, the alignment of the
member type otherwise. -/
def memberAlign (packed : Bool) (t : CType) : Nat :=
  if packed then 1 else t.alignof

/-- Storage assigned to one member. -/
structure Slot where
  name : FieldName
  offset : Nat
  size : Nat
  deriving DecidableEq

/-- Members are laid out in declaration order at increasing offsets, each at the
first suitably aligned offset after the previous member. -/
def layoutFrom (packed : Bool) : Nat → List Member → List Slot
  | _, [] => []
  | off, m :: ms =>
    let o := alignUp off (memberAlign packed m.type)
    Slot.mk m.name o m.type.sizeof :: layoutFrom packed (o + m.type.sizeof) ms

/-- The slots of a structure. -/
def StructDecl.layout (d : StructDecl) : List Slot :=
  layoutFrom d.packed 0 d.members

/-- First offset after the last member. -/
def slotsEnd : List Slot → Nat
  | [] => 0
  | [s] => s.offset + s.size
  | _ :: s :: ss => slotsEnd (s :: ss)

/-- Alignment of the structure: the largest member alignment. -/
def StructDecl.alignof (d : StructDecl) : Nat :=
  (d.members.map fun m => memberAlign d.packed m.type).foldl max 1

/-- Size in bytes of the structure (`sizeof`), trailing padding included. -/
def StructDecl.sizeof (d : StructDecl) : Nat :=
  alignUp (slotsEnd d.layout) d.alignof

/-- Offset in bytes of a member (`offsetof`). -/
def StructDecl.offsetof (d : StructDecl) (n : FieldName) : Nat :=
  match d.layout.find? (fun s => decide (s.name = n)) with
  | some s => s.offset
  | none => 0

/-- Number of bytes between consecutive members (and before the first one). -/
def gapsFrom : Nat → List Slot → List Nat
  | _, [] => []
  | off, s :: ss => (s.offset - off) :: gapsFrom (s.offset + s.size) ss

/-! ## Values and their object representation -/

/-- Value of a `struct mastermsgbuf`. -/
structure mastermsgbuf where
  node_address_to : Byte
  node_address_from : Byte
  inputs : Byte
  outputs : Byte
  line : Fin 4 → Fin 20 → Byte
  checksum : Byte

/-- Value of a `struct slavemsgbuf`. -/
structure slavemsgbuf where
  node_address_to : Byte
  node_address_from : Byte
  inputs : Byte
  outputs : Byte
  checksum : Byte
  deriving DecidableEq

/-- Concatenation of byte sequences. -/
def concatBytes : List (List Byte) → List Byte
  | [] => []
  | x :: xs => x ++ concatBytes xs

/-- Object representation of a two-dimensional array: the rows one after the
other, each row element by element. -/
def array2Bytes {r c : Nat} (a : Fin r → Fin c → Byte) : List Byte :=
  concatBytes (List.ofFn fun i => List.ofFn (a i))

/-- Object representation of one member of a master message. -/
def mastermsgbuf.fieldBytes (m : mastermsgbuf) : FieldName → List Byte
  | .node_address_to => [m.node_address_to]
  | .node_address_from => [m.node_address_from]
  | .inputs => [m.inputs]
  | .outputs => [m.outputs]
  | .line => array2Bytes m.line
  | .checksum => [m.checksum]

/-- Object representation of one member of a slave message. -/
def slavemsgbuf.fieldBytes (s : slavemsgbuf) : FieldName → List Byte
  | .node_address_to => [s.node_address_to]
  | .node_address_from => [s.node_address_from]
  | .inputs => [s.inputs]
  | .outputs => [s.outputs]
  | .line => []
  | .checksum => [s.checksum]

/-- Bytes of a packed structure: the members in declaration order. -/
def packedImage (d : StructDecl) (fieldBytes : FieldName → List Byte) : List Byte :=
  concatBytes (d.members.map fun mem => fieldBytes mem.name)

/-- The bytes of a master message as stored and transmitted. -/
def mastermsgbuf.image (m : mastermsgbuf) : List Byte :=
  packedImage mastermsgbuf_decl m.fieldBytes

/-- The bytes of a slave message as stored and transmitted. -/
def slavemsgbuf.image (s : slavemsgbuf) : List Byte :=
  packedImage slavemsgbuf_decl s.fieldBytes

/-- Byte stored at offset `k` of a buffer. -/
def byteAt (b : List Byte) (k : Nat) : Byte := b.getD k 0

/-- Offset of element `[i][j]` inside an array of rows of `c` one-byte elements. -/
def index2 (c i j : Nat) : Nat := c * i + j

/-- Member access on a received buffer of the size of a master message: every
member is read at its offset. -/
def mastermsgbuf.read (b : List Byte) : Option mastermsgbuf :=
  if b.length = mastermsgbuf_decl.sizeof then
    some
      (mastermsgbuf.mk
        (byteAt b (mastermsgbuf_decl.offsetof .node_address_to))
        (byteAt b (mastermsgbuf_decl.offsetof .node_address_from))
        (byteAt b (mastermsgbuf_decl.offsetof .inputs))
        (byteAt b (mastermsgbuf_decl.offsetof .outputs))
        (fun i j => byteAt b (mastermsgbuf_decl.offsetof .line + index2 20 i j))
        (byteAt b (mastermsgbuf_decl.offsetof .checksum)))
  else none

/-- Member access on a received buffer of the size of a slave message. -/
def slavemsgbuf.read (b : List Byte) : Option slavemsgbuf :=
  if b.length = slavemsgbuf_decl.sizeof then
    some
      (slavemsgbuf.mk
        (byteAt b (slavemsgbuf_decl.offsetof .node_address_to))
        (byteAt b (slavemsgbuf_decl.offsetof .node_address_from))
        (byteAt b (slavemsgbuf_decl.offsetof .inputs))
        (byteAt b (slavemsgbuf_decl.offsetof .outputs))
        (byteAt b (slavemsgbuf_decl.offsetof .checksum)))
  else none

/-- Assignment of 20 bytes to row `i` of the `line` member. -/
def mastermsgbuf.setLine (m : mastermsgbuf) (i : Fin 4) (row : Fin 20 → Byte) :
    mastermsgbuf :=
  mastermsgbuf.mk m.node_address_to m.node_address_from m.inputs m.outputs
    (fun i2 => if i2 = i then row else m.line i2) m.checksum

/-- The frame the master sends to the display node: outputs bit 0 set, four rows
of 20 ASCII spaces, and `cs` in the checksum member. -/
def displayFrame (cs : Byte) : mastermsgbuf :=
  mastermsgbuf.mk (to_uchar DISPLAY_NODE_ID) (to_uchar MASTER_ID) 0x00 0x01
    (fun _ _ => 0x20) cs

/-- A reply of a slave node at address 3 to the master. -/
def slaveReply : slavemsgbuf :=
  slavemsgbuf.mk (to_uchar MASTER_ID) 0x03 0x80 0xFF 0x00

/-! ## Layout facts -/

theorem mastermsgbuf_layout :
    mastermsgbuf_decl.layout =
      [ Slot.mk .node_address_to 0 1, Slot.mk .node_address_from 1 1,
        Slot.mk .inputs 2 1, Slot.mk .outputs 3 1, Slot.mk .line 4 80,
        Slot.mk .checksum 84 1 ] := by
  decide

theorem slavemsgbuf_layout :
    slavemsgbuf_decl.layout =
      [ Slot.mk .node_address_to 0 1, Slot.mk .node_address_from 1 1,
        Slot.mk .inputs 2 1, Slot.mk .outputs 3 1, Slot.mk .checksum 4 1 ] := by
  decide

theorem mastermsgbuf_sizeof : mastermsgbuf_decl.sizeof = 85 := by decide

theorem slavemsgbuf_sizeof : slavemsgbuf_decl.sizeof = 5 := by decide


theorem master_image_eq (m : mastermsgbuf) :
    m.image = m.node_address_to :: m.node_address_from :: m.inputs :: m.outputs ::
      (array2Bytes m.line ++ [m.checksum]) := by
  simp [mastermsgbuf.image, packedImage, mastermsgbuf_decl, concatBytes, mastermsgbuf.fieldBytes]

theorem slave_image_eq (s : slavemsgbuf) :
    s.image = [s.node_address_to, s.node_address_from, s.inputs, s.outputs, s.checksum] := by
  simp [slavemsgbuf.image, packedImage, slavemsgbuf_decl, concatBytes, slavemsgbuf.fieldBytes]

theorem concatBytes_rows_length (c : Nat) :
    ∀ (rows : List (List Byte)), (∀ x ∈ rows, x.length = c) →
      (concatBytes rows).length = c * rows.length
  | [], _ => by simp [concatBytes]
  | x :: xs, h => by
    have hx : x.length = c := h x (List.mem_cons_self x xs)
    have ih := concatBytes_rows_length c xs (fun y hy => h y (List.mem_cons_of_mem x hy))
    simp only [concatBytes, List.length_append, List.length_cons, hx, ih]
    ring

theorem concatBytes_rows_get (c : Nat) :
    ∀ (rows : List (List Byte)), (∀ x ∈ rows, x.length = c) →
      ∀ (i j : Nat) (row : List Byte), rows[i]? = some row → j < c →
        (concatBytes rows)[c * i + j]? = row[j]?
  | [], _, i, j, row, hi, _ => by simp at hi
  | x :: xs, h, 0, j, row, hi, hj => by
    have hx : x.length = c := h x (List.mem_cons_self x xs)
    simp at hi
    subst hi
    simp [concatBytes]
    rw [List.getElem?_append_left (by omega)]
  | x :: xs, h, i + 1, j, row, hi, hj => by
    have hx : x.length = c := h x (List.mem_cons_self x xs)
    have ih := concatBytes_rows_get c xs (fun y hy => h y (List.mem_cons_of_mem x hy))
      i j row (by simpa using hi) hj
    simp only [concatBytes]
    rw [List.getElem?_append_right (by rw [hx, Nat.mul_succ]; omega)]
    rw [← ih]
    congr 1
    rw [hx, Nat.mul_succ]; omega

theorem array2Bytes_length {r c : Nat} (a : Fin r → Fin c → Byte) :
    (array2Bytes a).length = c * r := by
  unfold array2Bytes
  rw [concatBytes_rows_length c]
  · simp
  · intro x hx
    simp [List.mem_ofFn] at hx
    obtain ⟨i, rfl⟩ := hx
    simp

theorem array2Bytes_get {r c : Nat} (a : Fin r → Fin c → Byte) (i : Fin r) (j : Fin c) :
    (array2Bytes a)[index2 c i j]? = some (a i j) := by
  unfold array2Bytes index2
  rw [concatBytes_rows_get c _ _ i j (List.ofFn (a i))]
  · simp [List.getElem?_ofFn]
  · simp [List.getElem?_ofFn]
  · exact j.isLt
  · intro x hx
    simp [List.mem_ofFn] at hx
    obtain ⟨i, rfl⟩ := hx
    simp


theorem master_image_length (m : mastermsgbuf) : m.image.length = 85 := by
  rw [master_image_eq]
  simp [array2Bytes_length]

theorem master_image_line (m : mastermsgbuf) (i : Fin 4) (j : Fin 20) :
    m.image[4 + index2 20 i j]? = some (m.line i j) := by
  have hlt : index2 20 i j < (array2Bytes m.line).length := by
    rw [array2Bytes_length]
    unfold index2
    omega
  rw [master_image_eq, Nat.add_comm 4]
  show (_ :: _ :: _ :: _ :: _)[index2 20 i j + 1 + 1 + 1 + 1]? = _
  simp only [List.getElem?_cons_succ]
  rw [List.getElem?_append_left hlt]
  exact array2Bytes_get m.line i j

theorem master_image_checksum (m : mastermsgbuf) : m.image[84]? = some m.checksum := by
  have hlen : (array2Bytes m.line).length = 80 := by rw [array2Bytes_length]
  rw [master_image_eq]
  show (_ :: _ :: _ :: _ :: _)[80 + 1 + 1 + 1 + 1]? = _
  simp only [List.getElem?_cons_succ]
  rw [List.getElem?_append_right (by omega), hlen]
  rfl

theorem master_image_header (m : mastermsgbuf) :
    m.image[0]? = some m.node_address_to ∧ m.image[1]? = some m.node_address_from ∧
      m.image[2]? = some m.inputs ∧ m.image[3]? = some m.outputs := by
  rw [master_image_eq]
  exact ⟨rfl, rfl, rfl, rfl⟩

theorem byteAt_of_get {b : List Byte} {k : Nat} {v : Byte} (h : b[k]? = some v) :
    byteAt b k = v := by
  simp [byteAt, List.getD, h]

theorem master_offsetof :
    mastermsgbuf_decl.offsetof .node_address_to = 0 ∧
    mastermsgbuf_decl.offsetof .node_address_from = 1 ∧
    mastermsgbuf_decl.offsetof .inputs = 2 ∧
    mastermsgbuf_decl.offsetof .outputs = 3 ∧
    mastermsgbuf_decl.offsetof .line = 4 ∧
    mastermsgbuf_decl.offsetof .checksum = 84 := by
  decide

theorem slave_offsetof :
    slavemsgbuf_decl.offsetof .node_address_to = 0 ∧
    slavemsgbuf_decl.offsetof .node_address_from = 1 ∧
    slavemsgbuf_decl.offsetof .inputs = 2 ∧
    slavemsgbuf_decl.offsetof .outputs = 3 ∧
    slavemsgbuf_decl.offsetof .checksum = 4 := by
  decide

theorem slave_read_image (s : slavemsgbuf) : slavemsgbuf.read s.image = some s := by
  obtain ⟨h0, h1, h2, h3, h4⟩ := slave_offsetof
  unfold slavemsgbuf.read
  rw [if_pos (by rw [slave_image_eq, slavemsgbuf_sizeof]; rfl), h0, h1, h2, h3, h4, slave_image_eq]
  rfl


theorem master_slot_unique (k : Nat) (hk : k < 85) :
    ∃! s : Slot, s ∈ mastermsgbuf_decl.layout ∧ s.offset ≤ k ∧ k < s.offset + s.size := by
  rw [mastermsgbuf_layout]
  have hcases : k = 0 ∨ k = 1 ∨ k = 2 ∨ k = 3 ∨ (4 ≤ k ∧ k < 84) ∨ k = 84 := by omega
  have huniq : ∀ (s t : Slot),
      (s ∈ [ Slot.mk .node_address_to 0 1, Slot.mk .node_address_from 1 1,
        Slot.mk .inputs 2 1, Slot.mk .outputs 3 1, Slot.mk .line 4 80,
        Slot.mk .checksum 84 1 ] ∧ s.offset ≤ k ∧ k < s.offset + s.size) →
      (t ∈ [ Slot.mk .node_address_to 0 1, Slot.mk .node_address_from 1 1,
        Slot.mk .inputs 2 1, Slot.mk .outputs 3 1, Slot.mk .line 4 80,
        Slot.mk .checksum 84 1 ] ∧ t.offset ≤ k ∧ k < t.offset + t.size) → t = s := by
    intro s t hs ht
    obtain ⟨hs, hs1, hs2⟩ := hs
    obtain ⟨ht, ht1, ht2⟩ := ht
    simp only [List.mem_cons, List.mem_singleton, List.not_mem_nil, or_false] at hs ht
    rcases hs with rfl | rfl | rfl | rfl | rfl | rfl <;>
      rcases ht with rfl | rfl | rfl | rfl | rfl | rfl <;>
      first
        | rfl
        | (exfalso; simp only at hs1 hs2 ht1 ht2; omega)
  have hex : ∃ s : Slot,
      s ∈ [ Slot.mk .node_address_to 0 1, Slot.mk .node_address_from 1 1,
        Slot.mk .inputs 2 1, Slot.mk .outputs 3 1, Slot.mk .line 4 80,
        Slot.mk .checksum 84 1 ] ∧ s.offset ≤ k ∧ k < s.offset + s.size := by
    rcases hcases with h | h | h | h | h | h
    · exact ⟨Slot.mk .node_address_to 0 1, by simp, by simp, by simp; omega⟩
    · exact ⟨Slot.mk .node_address_from 1 1, by simp, by simp; omega, by simp; omega⟩
    · exact ⟨Slot.mk .inputs 2 1, by simp, by simp; omega, by simp; omega⟩
    · exact ⟨Slot.mk .outputs 3 1, by simp, by simp; omega, by simp; omega⟩
    · exact ⟨Slot.mk .line 4 80, by simp, by simp; omega, by simp; omega⟩
    · exact ⟨Slot.mk .checksum 84 1, by simp, by simp; omega, by simp; omega⟩
  obtain ⟨s, hs⟩ := hex
  exact ⟨s, hs, fun t ht => huniq s t hs ht⟩

theorem line_index_unique (k : Nat) (h4 : 4 ≤ k) (h84 : k < 84) :
    ∃! ij : Fin 4 × Fin 20, k = 4 + index2 20 ij.1 ij.2 := by
  refine ⟨(⟨(k - 4) / 20, by omega⟩, ⟨(k - 4) % 20, by omega⟩), ?_, ?_⟩
  · simp only [index2]
    omega
  · rintro ⟨i, j⟩ h
    simp only [index2] at h
    have hi := i.isLt
    have hj := j.isLt
    ext
    · simp only
      omega
    · simp only
      omega


theorem master_field_lengths (m : mastermsgbuf) :
    (m.fieldBytes .node_address_to).length = 1 ∧
    (m.fieldBytes .node_address_from).length = 1 ∧
    (m.fieldBytes .inputs).length = 1 ∧
    (m.fieldBytes .outputs).length = 1 ∧
    (m.fieldBytes .line).length = 4 * 20 ∧
    (m.fieldBytes .checksum).length = 1 := by
  refine ⟨rfl, rfl, rfl, rfl, ?_, rfl⟩
  show (array2Bytes m.line).length = 4 * 20
  rw [array2Bytes_length]

theorem setLine_line_same (m : mastermsgbuf) (i : Fin 4) (row : Fin 20 → Byte) :
    (m.setLine i row).line i = row := by
  simp [mastermsgbuf.setLine]

theorem setLine_line_other (m : mastermsgbuf) (i i2 : Fin 4) (row : Fin 20 → Byte)
    (h : i2 ≠ i) : (m.setLine i row).line i2 = m.line i2 := by
  simp [mastermsgbuf.setLine, h]

theorem setLine_outside_unchanged (m : mastermsgbuf) (i : Fin 4) (row : Fin 20 → Byte)
    (k : Nat) (hk : k < 85) (hout : k < 4 + 20 * i.val ∨ 4 + 20 * i.val + 20 ≤ k) :
    (m.setLine i row).image[k]? = m.image[k]? := by
  have hcases : k = 0 ∨ k = 1 ∨ k = 2 ∨ k = 3 ∨ (4 ≤ k ∧ k < 84) ∨ k = 84 := by omega
  obtain ⟨a0, a1, a2, a3⟩ := master_image_header (m.setLine i row)
  obtain ⟨b0, b1, b2, b3⟩ := master_image_header m
  rcases hcases with h | h | h | h | h | h
  · subst h; rw [a0, b0]; rfl
  · subst h; rw [a1, b1]; rfl
  · subst h; rw [a2, b2]; rfl
  · subst h; rw [a3, b3]; rfl
  · obtain ⟨ij, hij, -⟩ := line_index_unique k h.1 h.2
    have hne : ij.1 ≠ i := by
      intro he
      simp only [index2] at hij
      have hj := ij.2.isLt
      rw [he] at hij
      omega
    rw [hij, master_image_line, master_image_line, setLine_line_other m i ij.1 row hne]
  · subst h; rw [master_image_checksum, master_image_checksum]; rfl

/-! ## The claims -/

/-- C1: for every value of its members, the transmitted image of a master message is
exactly 85 bytes long, that is 680 bits: four one-byte header members, 4*20 line
bytes and one checksum byte. -/
theorem master_image_size (m : mastermsgbuf) :
    m.image.length = 85 ∧ 8 * m.image.length = 680 ∧
    mastermsgbuf_decl.sizeof = 85 ∧
    (m.fieldBytes .node_address_to).length = 1 ∧
    (m.fieldBytes .node_address_from).length = 1 ∧
    (m.fieldBytes .inputs).length = 1 ∧
    (m.fieldBytes .outputs).length = 1 ∧
    (m.fieldBytes .line).length = 4 * 20 ∧
    (m.fieldBytes .checksum).length = 1 ∧
    m.image.length = 4 * 1 + 4 * 20 + 1 := by
  obtain ⟨h0, h1, h2, h3, h4, h5⟩ := master_field_lengths m
  have hl := master_image_length m
  refine ⟨hl, ?_, mastermsgbuf_sizeof, h0, h1, h2, h3, h4, h5, hl⟩
  rw [hl]

/-- C2: for every value of its members, the transmitted image of a slave message is
exactly 5 bytes long. -/
theorem slave_image_size (s : slavemsgbuf) :
    s.image.length = 5 ∧ slavemsgbuf_decl.sizeof = 5 := by
  refine ⟨?_, slavemsgbuf_sizeof⟩
  rw [slave_image_eq]
  rfl

/-- C3, as stated: the size of `struct slavemsgbuf`, 8 bits times its five one-byte
members, is not 32 bits. -/
theorem slave_size_not_32_bits :
    8 * slavemsgbuf_decl.members.length ≠ 32 ∧ 8 * slavemsgbuf_decl.sizeof ≠ 32 := by
  decide

/-- C3, amended: `struct slavemsgbuf` has five members of one byte each, and its size,
8 bits times 5, is 40 bits; so is the image of every slave message. -/
theorem slave_size_40_bits (s : slavemsgbuf) :
    slavemsgbuf_decl.members.length = 5 ∧
    (slavemsgbuf_decl.members.map fun mem => mem.type.sizeof) = [1, 1, 1, 1, 1] ∧
    8 * slavemsgbuf_decl.members.length = 40 ∧
    8 * slavemsgbuf_decl.sizeof = 40 ∧
    8 * s.image.length = 40 := by
  refine ⟨by decide, by decide, by decide, by decide, ?_⟩
  rw [slave_image_eq]
  rfl

/-- C4: in the 85-byte image of every master message the members appear in
declaration order without gap bytes: `node_address_to` is byte 0,
`node_address_from` byte 1, `inputs` byte 2, `outputs` byte 3, `line[i][j]` byte
`4 + 20*i + j`, and `checksum` byte 84, the last one; the member ranges are
pairwise disjoint and every offset below 85 lies in exactly one of them. -/
theorem master_image_offsets (m : mastermsgbuf) :
    m.image.length = 85 ∧
    mastermsgbuf_decl.layout =
      [ Slot.mk .node_address_to 0 1, Slot.mk .node_address_from 1 1,
        Slot.mk .inputs 2 1, Slot.mk .outputs 3 1, Slot.mk .line 4 80,
        Slot.mk .checksum 84 1 ] ∧
    gapsFrom 0 mastermsgbuf_decl.layout = [0, 0, 0, 0, 0, 0] ∧
    slotsEnd mastermsgbuf_decl.layout = mastermsgbuf_decl.sizeof ∧
    m.image[0]? = some m.node_address_to ∧
    m.image[1]? = some m.node_address_from ∧
    m.image[2]? = some m.inputs ∧
    m.image[3]? = some m.outputs ∧
    (∀ (i : Fin 4) (j : Fin 20), m.image[4 + 20 * i.val + j.val]? = some (m.line i j)) ∧
    m.image[84]? = some m.checksum ∧
    84 + 1 = m.image.length ∧
    mastermsgbuf_decl.layout.Pairwise (fun a b => a.offset + a.size ≤ b.offset) ∧
    (∀ k, k < 85 →
      ∃! s : Slot, s ∈ mastermsgbuf_decl.layout ∧ s.offset ≤ k ∧ k < s.offset + s.size) ∧
    (∀ k, 4 ≤ k → k < 84 → ∃! ij : Fin 4 × Fin 20, k = 4 + 20 * ij.1.val + ij.2.val) := by
  obtain ⟨g0, g1, g2, g3⟩ := master_image_header m
  have hl := master_image_length m
  refine ⟨hl, mastermsgbuf_layout, by decide, by decide, g0, g1, g2, g3, ?_,
    master_image_checksum m, by rw [hl], ?_, master_slot_unique, ?_⟩
  · intro i j
    have h := master_image_line m i j
    simp only [index2, ← Nat.add_assoc] at h
    exact h
  · rw [mastermsgbuf_layout]
    simp
  · intro k h4 h84
    have h := line_index_unique k h4 h84
    simp only [index2, ← Nat.add_assoc] at h
    exact h

/-- C4 at the display frame: byte 83 is `line[3][19]`, offset 84 lies in exactly one
member range, and offset 50 is one `line` element. -/
theorem master_image_offsets_witness :
    (displayFrame 0).image[4 + 20 * 3 + 19]? = some 0x20 ∧
    (∃! s : Slot, s ∈ mastermsgbuf_decl.layout ∧ s.offset ≤ 84 ∧ 84 < s.offset + s.size) ∧
    (∃! ij : Fin 4 × Fin 20, 50 = 4 + 20 * ij.1.val + ij.2.val) :=
  ⟨(master_image_offsets (displayFrame 0)).2.2.2.2.2.2.2.2.1 3 19,
   (master_image_offsets (displayFrame 0)).2.2.2.2.2.2.2.2.2.2.2.2.1 84 (by decide),
   (master_image_offsets (displayFrame 0)).2.2.2.2.2.2.2.2.2.2.2.2.2 50 (by decide) (by decide)⟩

/-- C5: in the 5-byte image of every slave message the members appear in declaration
order without gap bytes, `node_address_to`, `node_address_from`, `inputs`, `outputs`
at bytes 0 to 3 and `checksum` at byte 4, the last one; the four header members have
the offsets they have in a master message. -/
theorem slave_image_offsets (s : slavemsgbuf) (m : mastermsgbuf) :
    s.image = [s.node_address_to, s.node_address_from, s.inputs, s.outputs, s.checksum] ∧
    slavemsgbuf_decl.layout =
      [ Slot.mk .node_address_to 0 1, Slot.mk .node_address_from 1 1,
        Slot.mk .inputs 2 1, Slot.mk .outputs 3 1, Slot.mk .checksum 4 1 ] ∧
    gapsFrom 0 slavemsgbuf_decl.layout = [0, 0, 0, 0, 0] ∧
    slotsEnd slavemsgbuf_decl.layout = slavemsgbuf_decl.sizeof ∧
    s.image[0]? = some s.node_address_to ∧
    s.image[1]? = some s.node_address_from ∧
    s.image[2]? = some s.inputs ∧
    s.image[3]? = some s.outputs ∧
    s.image[4]? = some s.checksum ∧
    4 + 1 = s.image.length ∧
    slavemsgbuf_decl.offsetof .node_address_to = mastermsgbuf_decl.offsetof .node_address_to ∧
    slavemsgbuf_decl.offsetof .node_address_from =
      mastermsgbuf_decl.offsetof .node_address_from ∧
    slavemsgbuf_decl.offsetof .inputs = mastermsgbuf_decl.offsetof .inputs ∧
    slavemsgbuf_decl.offsetof .outputs = mastermsgbuf_decl.offsetof .outputs ∧
    m.image[0]? = some m.node_address_to ∧
    m.image[1]? = some m.node_address_from ∧
    m.image[2]? = some m.inputs ∧
    m.image[3]? = some m.outputs := by
  obtain ⟨g0, g1, g2, g3⟩ := master_image_header m
  have he := slave_image_eq s
  refine ⟨he, slavemsgbuf_layout, by decide, by decide, ?_, ?_, ?_, ?_, ?_, ?_,
    by decide, by decide, by decide, by decide, g0, g1, g2, g3⟩ <;> rw [he] <;> rfl

/-- C6: reading the members back from the 85-byte image of any master message `m`,
each at its offset, gives `m` again, whatever bytes its members and its 80 line
bytes hold. -/
theorem master_round_trip (m : mastermsgbuf) : mastermsgbuf.read m.image = some m := by
  obtain ⟨h0, h1, h2, h3, h4, h5⟩ := master_offsetof
  obtain ⟨g0, g1, g2, g3⟩ := master_image_header m
  unfold mastermsgbuf.read
  rw [if_pos (by rw [master_image_length, mastermsgbuf_sizeof]), h0, h1, h2, h3, h4, h5,
    byteAt_of_get g0, byteAt_of_get g1, byteAt_of_get g2, byteAt_of_get g3,
    byteAt_of_get (master_image_checksum m)]
  have hl : (fun (i : Fin 4) (j : Fin 20) => byteAt m.image (4 + index2 20 i j)) = m.line := by
    funext i j
    exact byteAt_of_get (master_image_line m i j)
  rw [hl]

/-- C7: reading the members back from the 5-byte image of any slave message `s` gives
`s` again, and every sequence of 5 bytes is the image of exactly one slave message. -/
theorem slave_round_trip :
    (∀ s : slavemsgbuf, slavemsgbuf.read s.image = some s) ∧
    (∀ b : List Byte, b.length = 5 → ∃! s : slavemsgbuf, s.image = b) := by
  constructor
  · intro s
    exact slave_read_image s
  · intro b hb
    match b, hb with
    | [a0, a1, a2, a3, a4], _ =>
      refine ⟨slavemsgbuf.mk a0 a1 a2 a3 a4, slave_image_eq _, ?_⟩
      intro t ht
      rw [slave_image_eq] at ht
      cases t
      simp only [List.cons.injEq, and_true] at ht
      obtain ⟨rfl, rfl, rfl, rfl, rfl⟩ := ht
      rfl

/-- C7 at the reply of node 3 and at the byte sequence 01 03 80 FF 00. -/
theorem slave_round_trip_witness :
    slavemsgbuf.read slaveReply.image = some slaveReply ∧
    ∃! s : slavemsgbuf, s.image = [0x01, 0x03, 0x80, 0xFF, 0x00] :=
  ⟨slave_round_trip.1 slaveReply, slave_round_trip.2 [0x01, 0x03, 0x80, 0xFF, 0x00] rfl⟩

/-- C8: `MASTER_ID` is 0x1 and `DISPLAY_NODE_ID` is 0x2; they differ, and each fits the
one-byte address members: converting it to `unsigned char` leaves its value
unchanged. -/
theorem reserved_addresses :
    MASTER_ID = 0x1 ∧ DISPLAY_NODE_ID = 0x2 ∧ MASTER_ID ≠ DISPLAY_NODE_ID ∧
    MASTER_ID < 256 ∧ DISPLAY_NODE_ID < 256 ∧
    (to_uchar MASTER_ID).val = MASTER_ID ∧
    (to_uchar DISPLAY_NODE_ID).val = DISPLAY_NODE_ID ∧
    to_uchar MASTER_ID ≠ to_uchar DISPLAY_NODE_ID := by
  decide

/-- C10: assigning 20 bytes to `line[i]` of a master message puts these bytes at
offsets `4 + 20*i` to `4 + 20*i + 19` of the image and leaves every other byte of
the 85-byte image as it was: the other three rows, the four header bytes and the
checksum byte. -/
theorem setLine_image (m : mastermsgbuf) (i : Fin 4) (row : Fin 20 → Byte) :
    (m.setLine i row).image.length = 85 ∧
    (∀ j : Fin 20, (m.setLine i row).image[4 + 20 * i.val + j.val]? = some (row j)) ∧
    (∀ k, k < 85 → (k < 4 + 20 * i.val ∨ 4 + 20 * i.val + 20 ≤ k) →
      (m.setLine i row).image[k]? = m.image[k]?) ∧
    (∀ i2 : Fin 4, i2 ≠ i → (m.setLine i row).line i2 = m.line i2) ∧
    (m.setLine i row).node_address_to = m.node_address_to ∧
    (m.setLine i row).node_address_from = m.node_address_from ∧
    (m.setLine i row).inputs = m.inputs ∧
    (m.setLine i row).outputs = m.outputs ∧
    (m.setLine i row).checksum = m.checksum := by
  refine ⟨master_image_length _, ?_, setLine_outside_unchanged m i row,
    fun i2 h => setLine_line_other m i i2 row h, rfl, rfl, rfl, rfl, rfl⟩
  intro j
  have h := master_image_line (m.setLine i row) i j
  rw [setLine_line_same] at h
  simp only [index2, ← Nat.add_assoc] at h
  exact h

/-- C10 at the display frame: writing twenty bytes 0xFF to `line[3]` puts 0xFF at
offset 83 and leaves offsets 63 (end of `line[2]`) and 84 (checksum) unchanged. -/
theorem setLine_image_witness :
    ((displayFrame 0x5A).setLine 3 (fun _ => 0xFF)).image[4 + 20 * 3 + 19]? = some 0xFF ∧
    ((displayFrame 0x5A).setLine 3 (fun _ => 0xFF)).image[63]? = (displayFrame 0x5A).image[63]? ∧
    ((displayFrame 0x5A).setLine 3 (fun _ => 0xFF)).image[84]? = (displayFrame 0x5A).image[84]? :=
  ⟨(setLine_image (displayFrame 0x5A) 3 (fun _ => 0xFF)).2.1 19,
   (setLine_image (displayFrame 0x5A) 3 (fun _ => 0xFF)).2.2.1 63 (by decide) (by decide),
   (setLine_image (displayFrame 0x5A) 3 (fun _ => 0xFF)).2.2.1 84 (by decide) (by decide)⟩

end PumpControl
